import Mathlib

/-!
Shallow embedding of `src/backend/server.js` (WhatsappAI): the chat-id
helper, the Mongoose document shapes, the REST handlers `/register`,
`/users`, `/ask-ai`, and the socket handlers `user_signed_in`,
`join_chat`, `send_message`, `disconnect`.

Conventions of the embedding:
* MongoDB collections are lists of documents; `Message.find(...).sort(...)`
  is list filtering followed by a sort on the timestamp key.
* Side effects of a handler (document saves, socket emits, LLM calls) are
  reified as a list of `Effect` values in program order.
* The Gemini call is a parameter `llm : List ChatTurn → String`: the
  handler is a pure function of the oracle's answers.
* JavaScript string comparison (used by `Array.prototype.sort` on two
  identifiers) is modelled by Lean's lexicographic order on `String`.
-/

/-- `const getChatId = (id1, id2) => [id1, id2].sort().join('_')`
(server.js line 65; the frontend repeats the same definition).
Sorting a two-element array puts the lexicographically smaller string
first, then the two are joined with an underscore. -/
def getChatId (id1 id2 : String) : String :=
  if id1 ≤ id2 then id1 ++ "_" ++ id2 else id2 ++ "_" ++ id1

/-- A document of the `Message` collection (server.js lines 54-62);
`translatedText` is never written by any handler, so it is omitted.
Timestamps are abstract instants modelled as `Nat`. -/
structure Message where
  chatId : String
  senderId : String
  receiverId : String
  text : String
  timestamp : Nat
deriving DecidableEq, Repr

/-- One entry of the `chatHistoryForAI` array handed to
`getGeminiResponse`: a role string and the single `parts` text. -/
structure ChatTurn where
  role : String
  text : String
deriving DecidableEq, Repr

/-- `{ role: msg.senderId === 'ai_assistant' ? 'model' : 'user',
parts: [{ text: msg.text }] }` (server.js lines 136-139 and 174-177). -/
def toTurn (m : Message) : ChatTurn :=
  { role := if m.senderId = "ai_assistant" then "model" else "user"
    text := m.text }

/-- The comparison used by `.sort({ timestamp: -1 })`: descending
timestamps. -/
def tsDesc (a b : Message) : Prop := b.timestamp ≤ a.timestamp

instance : DecidableRel tsDesc := fun a b => Nat.decLe b.timestamp a.timestamp

instance : IsTotal Message tsDesc :=
  ⟨fun a b => (Nat.le_total b.timestamp a.timestamp).imp id id⟩

instance : IsTrans Message tsDesc :=
  ⟨fun _ _ _ h1 h2 => Nat.le_trans h2 h1⟩

/-- `Message.find({ chatId }).sort({ timestamp: -1 }).limit(10)` followed
by `history.reverse().map(...)` (server.js lines 135-139 and 173-177):
the chat's messages, sorted newest first, cut to ten, reversed to oldest
first, and mapped to Gemini turns. -/
def buildHistory (store : List Message) (chatId : String) : List ChatTurn :=
  (((store.filter (fun m => m.chatId = chatId)).insertionSort tsDesc).take 10).reverse.map toTurn

/-- A side effect of a handler, in program order: a `Message` save, a
room-scoped `io.to(room).emit(event, m)`, a global `io.emit(event, m)`,
or a call of `getGeminiResponse(history)`. -/
inductive Effect where
  | save (m : Message)
  | emitRoom (room : String) (event : String) (m : Message)
  | emitAll (event : String) (m : Message)
  | llmCall (history : List ChatTurn)
deriving DecidableEq, Repr

/-- The `send_message` socket handler (server.js lines 165-186).
`now` is the timestamp Mongoose assigns to the relayed message, `now2`
the one assigned to the AI reply. Returns the updated `Message`
collection and the effects in program order. -/
def sendMessageHandler (store : List Message) (llm : List ChatTurn → String)
    (senderId receiverId text : String) (now now2 : Nat) :
    List Message × List Effect :=
  let chatId := getChatId senderId receiverId
  let messageToSave : Message :=
    { chatId := chatId, senderId := senderId, receiverId := receiverId
      text := text, timestamp := now }
  let store1 := store ++ [messageToSave]
  let base := [Effect.save messageToSave,
               Effect.emitRoom chatId "receive_message" messageToSave]
  if receiverId = "ai_assistant" then
    let hist := buildHistory store1 chatId
    let aiResponseText := llm hist
    let aiMessage : Message :=
      { chatId := chatId, senderId := "ai_assistant", receiverId := senderId
        text := aiResponseText, timestamp := now2 }
    (store1 ++ [aiMessage],
     base ++ [Effect.llmCall hist, Effect.save aiMessage,
              Effect.emitRoom chatId "receive_message" aiMessage])
  else
    (store1, base)

/-- JavaScript falsiness of an optional string field of `req.body`:
`!x` is true when the field is absent or the empty string. -/
def strFalsy : Option String → Bool
  | none => true
  | some s => s = ""

/-- The `/ask-ai` handler (server.js lines 124-149). Returns the updated
`Message` collection, the effects, and the HTTP response as a status
code with body text. -/
def askAiHandler (store : List Message) (llm : List ChatTurn → String)
    (prompt userId : Option String) (now now2 : Nat) :
    List Message × List Effect × Nat × String :=
  if strFalsy prompt || strFalsy userId then
    (store, [], 400, "Prompt and userId are required.")
  else
    match prompt, userId with
    | some p, some u =>
      let chatId := getChatId u "ai_assistant"
      let userMessage : Message :=
        { chatId := chatId, senderId := u, receiverId := "ai_assistant"
          text := p, timestamp := now }
      let store1 := store ++ [userMessage]
      let hist := buildHistory store1 chatId
      let aiResponseText := llm hist
      let aiMessage : Message :=
        { chatId := chatId, senderId := "ai_assistant", receiverId := u
          text := aiResponseText, timestamp := now2 }
      (store1 ++ [aiMessage],
       [Effect.save userMessage, Effect.llmCall hist, Effect.save aiMessage],
       200, aiResponseText)
    | _, _ => (store, [], 400, "Prompt and userId are required.")

/-- A document of the `User` collection (server.js lines 45-51);
`lastSeen` is never read or written by a handler and is omitted. -/
structure UserDoc where
  name : String
  phone : String
  uid : String
  language : String
deriving DecidableEq, Repr

/-- `User.findOne({ uid })`: the first stored user with that uid. -/
def findOneUid (users : List UserDoc) (uid : String) : Option UserDoc :=
  users.find? (fun u => u.uid = uid)

/-- The `/register` handler (server.js lines 96-111): `uid` is set to the
submitted phone; an existing user is answered with 200 and no insert,
otherwise a new document is saved and answered with 201. Returns the
updated `User` collection, the status code, and the user in the body. -/
def registerHandler (users : List UserDoc) (name phone language : String) :
    List UserDoc × Nat × UserDoc :=
  let uid := phone
  match findOneUid users uid with
  | some user => (users, 200, user)
  | none =>
    let newUser : UserDoc :=
      { name := name, phone := phone, uid := uid, language := language }
    (users ++ [newUser], 201, newUser)

/-- An HTTP method of an Express route. -/
inductive Method where
  | GET
  | POST
deriving DecidableEq, Repr

/-- Every route the backend registers (server.js lines 96, 113, 124).
None of the three paths has a `:param` segment, so Express matching on
them is plain path equality. -/
def backendRoutes : List (Method × String) :=
  [(Method.POST, "/register"), (Method.GET, "/users"), (Method.POST, "/ask-ai")]

/-- Whether some registered route handles the given method and path. -/
def handlesRoute (m : Method) (path : String) : Bool :=
  backendRoutes.any (fun r => r.1 = m ∧ r.2 = path)

/-- The payload of a `user_signed_in` event: the signed-in user object.
Only `uid` steers the handlers; the remaining fields the spread
`{ ...user }` copies are bundled into one abstract `payload`. -/
structure SUser where
  uid : String
  payload : String
deriving DecidableEq, Repr

/-- A value of the `onlineUsers` object:
`{ ...user, socketId: socket.id }` (server.js line 157). -/
structure OnlineEntry where
  uid : String
  payload : String
  socketId : Nat
deriving DecidableEq, Repr

/-- The entry stored for user `u` signed in on socket `sid`. -/
def mkEntry (u : SUser) (sid : Nat) : OnlineEntry :=
  { uid := u.uid, payload := u.payload, socketId := sid }

/-- Property read `obj[k]` on an object modelled as an association list. -/
def alLookup {α β : Type} [DecidableEq α] (k : α) : List (α × β) → Option β
  | [] => none
  | (k', v) :: rest => if k' = k then some v else alLookup k rest

/-- Property write `obj[k] = v`: replaces an existing key in place,
otherwise appends (JavaScript object insertion order). -/
def alInsert {α β : Type} [DecidableEq α] (k : α) (v : β)
    (l : List (α × β)) : List (α × β) :=
  if k ∈ l.map Prod.fst then
    l.map (fun p => if p.1 = k then (k, v) else p)
  else
    l ++ [(k, v)]

/-- `delete obj[k]`. -/
def alErase {α β : Type} [DecidableEq α] (k : α) (l : List (α × β)) :
    List (α × β) :=
  l.filter (fun p => ¬ p.1 = k)

/-- The mutable server state the socket handlers touch: the in-memory
`onlineUsers` object (server.js line 152), the connected sockets with
their `socket.userData`, the room memberships, the two MongoDB
collections, and the log of `update_user_list` broadcasts (most recent
first). -/
structure ServerState where
  onlineUsers : List (String × OnlineEntry)
  sockets : List (Nat × Option SUser)
  rooms : List (Nat × String)
  store : List Message
  users : List UserDoc
  userListEmits : List (List OnlineEntry)
deriving Repr

/-- The empty initial state: no sockets, `onlineUsers = {}`. -/
def initialState : ServerState :=
  { onlineUsers := [], sockets := [], rooms := [], store := [], users := []
    userListEmits := [] }

/-- A socket-layer event: a new connection, or one of the four
registered socket events arriving from socket `sid`
(server.js lines 153-195). -/
inductive SockEvent where
  | connect (sid : Nat)
  | signIn (sid : Nat) (u : SUser)
  | joinChat (sid : Nat) (chatId : String)
  | sendMsg (sid : Nat) (senderId receiverId text : String) (now now2 : Nat)
  | disconnect (sid : Nat)
deriving DecidableEq, Repr

/-- `Object.values(onlineUsers)`. -/
def directoryValues (s : ServerState) : List OnlineEntry :=
  s.onlineUsers.map Prod.snd

/-- One step of the socket layer. `connect` registers the socket with no
`userData`; `user_signed_in` stores the user on the socket, writes
`onlineUsers[user.uid]` and broadcasts `Object.values(onlineUsers)`;
`join_chat` records room membership; `send_message` runs
`sendMessageHandler` against the `Message` collection; `disconnect`
deletes the socket and, when it carried `userData` whose uid is present
in `onlineUsers`, deletes that entry and broadcasts. Events naming an
unregistered socket cannot arrive and leave the state unchanged. -/
def step (llm : List ChatTurn → String) (s : ServerState) :
    SockEvent → ServerState
  | SockEvent.connect sid =>
    { s with sockets := s.sockets ++ [(sid, none)] }
  | SockEvent.signIn sid u =>
    if sid ∈ s.sockets.map Prod.fst then
      let sockets := s.sockets.map (fun p => if p.1 = sid then (sid, some u) else p)
      let ou := alInsert u.uid (mkEntry u sid) s.onlineUsers
      { s with onlineUsers := ou, sockets := sockets
               userListEmits := ou.map Prod.snd :: s.userListEmits }
    else s
  | SockEvent.joinChat sid chatId =>
    if sid ∈ s.sockets.map Prod.fst then
      { s with rooms := s.rooms ++ [(sid, chatId)] }
    else s
  | SockEvent.sendMsg sid senderId receiverId text now now2 =>
    if sid ∈ s.sockets.map Prod.fst then
      { s with store := (sendMessageHandler s.store llm senderId receiverId text now now2).1 }
    else s
  | SockEvent.disconnect sid =>
    match alLookup sid s.sockets with
    | none => s
    | some ud =>
      let sockets := alErase sid s.sockets
      match ud with
      | some u =>
        if (alLookup u.uid s.onlineUsers).isSome then
          let ou := alErase u.uid s.onlineUsers
          { s with onlineUsers := ou, sockets := sockets
                   userListEmits := ou.map Prod.snd :: s.userListEmits }
        else { s with sockets := sockets }
      | none => { s with sockets := sockets }

/-- Run a sequence of socket events from the empty initial state. -/
def runEvents (llm : List ChatTurn → String) (t : List SockEvent) : ServerState :=
  t.foldl (step llm) initialState

/-- The uids of the signed-in, still-connected users. -/
def signedInUids (s : ServerState) : List String :=
  s.sockets.filterMap (fun p => p.2.map SUser.uid)

/-- An event that can actually occur at state `s`: socket ids are unique,
and only a connected socket emits events. Additionally, for `signIn`,
the no-account-sharing discipline of the amended C4: no other connected
socket is signed in under the same uid, and the signing-in socket does
not switch to a different uid. -/
def goodEvent (s : ServerState) : SockEvent → Prop
  | SockEvent.connect sid => sid ∉ s.sockets.map Prod.fst
  | SockEvent.signIn sid u =>
    sid ∈ s.sockets.map Prod.fst ∧
      ∀ p ∈ s.sockets, ∀ u', p.2 = some u' → (u'.uid = u.uid ↔ p.1 = sid)
  | SockEvent.joinChat sid _ => sid ∈ s.sockets.map Prod.fst
  | SockEvent.sendMsg sid _ _ _ _ _ => sid ∈ s.sockets.map Prod.fst
  | SockEvent.disconnect sid => sid ∈ s.sockets.map Prod.fst

instance optionSomeForallDecidable {α : Type} (o : Option α) (P : α → Prop)
    [∀ a, Decidable (P a)] : Decidable (∀ a, o = some a → P a) :=
  match o with
  | none => isTrue (by intro a h; cases h)
  | some x => decidable_of_iff (P x)
      ⟨fun h a ha => by cases ha; exact h, fun h => h x rfl⟩

instance goodEventDecidable (s : ServerState) (e : SockEvent) :
    Decidable (goodEvent s e) := by
  cases e <;> · unfold goodEvent; infer_instance

/-- A trace of admissible events starting at state `s`. -/
def GoodTrace (llm : List ChatTurn → String) : ServerState → List SockEvent → Prop
  | _, [] => True
  | s, e :: rest => goodEvent s e ∧ GoodTrace llm (step llm s e) rest

instance goodTraceDecidable (llm : List ChatTurn → String) :
    ∀ s t, Decidable (GoodTrace llm s t)
  | _, [] => isTrue trivial
  | s, e :: rest =>
    have : Decidable (GoodTrace llm (step llm s e) rest) :=
      goodTraceDecidable llm (step llm s e) rest
    instDecidableAnd

/-- The presence invariant of claim C4: `onlineUsers` has pairwise
distinct keys, sockets have pairwise distinct ids, every signed-in
connected socket's user appears under its uid with the right metadata,
and every entry is accounted for by a signed-in connected socket. -/
def PresenceInv (s : ServerState) : Prop :=
  (s.onlineUsers.map Prod.fst).Nodup ∧
  (s.sockets.map Prod.fst).Nodup ∧
  (∀ p ∈ s.sockets, ∀ u, p.2 = some u →
    alLookup u.uid s.onlineUsers = some (mkEntry u p.1)) ∧
  (∀ q ∈ s.onlineUsers, ∃ p ∈ s.sockets, ∃ u, p.2 = some u ∧
    u.uid = q.1 ∧ q.2 = mkEntry u p.1)

/-- Integrity of the `User` collection as maintained by `/register`:
every stored user's uid equals their phone, and uids are pairwise
distinct (so phones are too). -/
def RegInv (users : List UserDoc) : Prop :=
  (∀ u ∈ users, u.uid = u.phone) ∧ (users.map UserDoc.uid).Nodup

section AssocLemmas

variable {α β : Type} [DecidableEq α]

theorem alLookup_cons (k k' : α) (v' : β) (rest : List (α × β)) :
    alLookup k ((k', v') :: rest) = if k' = k then some v' else alLookup k rest := rfl

theorem mem_of_alLookup_eq_some {k : α} {v : β} {l : List (α × β)}
    (h : alLookup k l = some v) : (k, v) ∈ l := by
  induction l with
  | nil => simp [alLookup] at h
  | cons p rest ih =>
    obtain ⟨k', v'⟩ := p
    rw [alLookup_cons] at h
    by_cases hk : k' = k
    · subst hk
      rw [if_pos rfl] at h
      cases h
      exact List.mem_cons_self _ _
    · rw [if_neg hk] at h
      exact List.mem_cons_of_mem _ (ih h)

theorem alLookup_isSome_of_mem {k : α} {v : β} {l : List (α × β)}
    (h : (k, v) ∈ l) : (alLookup k l).isSome = true := by
  induction l with
  | nil => cases h
  | cons p rest ih =>
    obtain ⟨k', v'⟩ := p
    rw [alLookup_cons]
    by_cases hk : k' = k
    · rw [if_pos hk]; rfl
    · rw [if_neg hk]
      rcases List.mem_cons.mp h with heq | hmem
      · cases heq; exact absurd rfl hk
      · exact ih hmem

theorem alLookup_insert_self (k : α) (v : β) (l : List (α × β)) :
    alLookup k (alInsert k v l) = some v := by
  unfold alInsert
  by_cases hmem : k ∈ l.map Prod.fst
  · rw [if_pos hmem]
    induction l with
    | nil => simp at hmem
    | cons p rest ih =>
      obtain ⟨k', v'⟩ := p
      by_cases hk : k' = k
      · subst hk
        simp [alLookup_cons]
      · rcases List.mem_map.mp hmem with ⟨q, hq, hq1⟩
        rcases List.mem_cons.mp hq with rfl | hqrest
        · exact absurd hq1 hk
        · have hmem' : k ∈ rest.map Prod.fst := List.mem_map.mpr ⟨q, hqrest, hq1⟩
          simp only [List.map_cons]
          rw [if_neg hk, alLookup_cons, if_neg hk]
          exact ih hmem'
  · rw [if_neg hmem]
    induction l with
    | nil => simp [alLookup_cons]
    | cons p rest ih =>
      obtain ⟨k', v'⟩ := p
      have hk : ¬ k' = k := by
        intro hk; exact hmem (List.mem_map.mpr ⟨(k', v'), List.mem_cons_self _ _, hk⟩)
      have hmem' : k ∉ rest.map Prod.fst := by
        intro hc
        rcases List.mem_map.mp hc with ⟨q, hq, hq1⟩
        exact hmem (List.mem_map.mpr ⟨q, List.mem_cons_of_mem _ hq, hq1⟩)
      simp only [List.cons_append, alLookup_cons, if_neg hk]
      exact ih hmem'

theorem alLookup_replace_ne {k k' : α} (hne : ¬ k' = k) (v : β) (l : List (α × β)) :
    alLookup k' (l.map (fun p => if p.1 = k then (k, v) else p)) = alLookup k' l := by
  induction l with
  | nil => rfl
  | cons p rest ih =>
    obtain ⟨k'', v''⟩ := p
    by_cases hk : k'' = k
    · subst hk
      have hhead : ((k'', v'') :: rest).map (fun p => if p.1 = k'' then (k'', v) else p)
          = (k'', v) :: rest.map (fun p => if p.1 = k'' then (k'', v) else p) := by
        simp
      rw [hhead, alLookup_cons, alLookup_cons,
        if_neg (fun h : k'' = k' => hne h.symm), if_neg (fun h : k'' = k' => hne h.symm)]
      exact ih
    · have hhead : ((k'', v'') :: rest).map (fun p => if p.1 = k then (k, v) else p)
          = (k'', v'') :: rest.map (fun p => if p.1 = k then (k, v) else p) := by
        simp [hk]
      rw [hhead, alLookup_cons, alLookup_cons]
      by_cases hk' : k'' = k'
      · rw [if_pos hk', if_pos hk']
      · rw [if_neg hk', if_neg hk']
        exact ih

theorem alLookup_append_single_ne {k k' : α} (hne : ¬ k' = k) (v : β) (l : List (α × β)) :
    alLookup k' (l ++ [(k, v)]) = alLookup k' l := by
  induction l with
  | nil =>
    simp only [List.nil_append, alLookup_cons]
    rw [if_neg (fun h : k = k' => hne (h.symm))]
  | cons p rest ih =>
    obtain ⟨k'', v''⟩ := p
    simp only [List.cons_append, alLookup_cons]
    by_cases hk' : k'' = k'
    · rw [if_pos hk', if_pos hk']
    · rw [if_neg hk', if_neg hk']
      exact ih

theorem alLookup_insert_ne {k k' : α} (hne : ¬ k' = k) (v : β) (l : List (α × β)) :
    alLookup k' (alInsert k v l) = alLookup k' l := by
  unfold alInsert
  by_cases hmem : k ∈ l.map Prod.fst
  · rw [if_pos hmem]
    exact alLookup_replace_ne hne v l
  · rw [if_neg hmem]
    exact alLookup_append_single_ne hne v l

theorem mem_alErase {k : α} {q : α × β} {l : List (α × β)} :
    q ∈ alErase k l ↔ q ∈ l ∧ ¬ q.1 = k := by
  unfold alErase
  simp [List.mem_filter]

theorem alLookup_erase_ne {k k' : α} (hne : ¬ k' = k) (l : List (α × β)) :
    alLookup k' (alErase k l) = alLookup k' l := by
  induction l with
  | nil => rfl
  | cons p rest ih =>
    obtain ⟨k'', v''⟩ := p
    by_cases hk : k'' = k
    · subst hk
      have hdrop : alErase k'' ((k'', v'') :: rest) = alErase k'' rest := by
        unfold alErase
        simp [List.filter_cons]
      rw [hdrop, ih, alLookup_cons, if_neg (fun h : k'' = k' => hne (h.symm))]
    · have hkeep : alErase k ((k'', v'') :: rest) = (k'', v'') :: alErase k rest := by
        unfold alErase
        simp [List.filter_cons, hk]
      rw [hkeep, alLookup_cons, alLookup_cons]
      by_cases hk' : k'' = k'
      · rw [if_pos hk', if_pos hk']
      · rw [if_neg hk', if_neg hk']
        exact ih

theorem keys_alErase_sublist (k : α) (l : List (α × β)) :
    ((alErase k l).map Prod.fst).Sublist (l.map Prod.fst) :=
  (List.filter_sublist l).map Prod.fst

theorem keys_alInsert_nodup (k : α) (v : β) {l : List (α × β)}
    (h : (l.map Prod.fst).Nodup) : ((alInsert k v l).map Prod.fst).Nodup := by
  unfold alInsert
  by_cases hmem : k ∈ l.map Prod.fst
  · rw [if_pos hmem]
    have : (l.map (fun p => if p.1 = k then (k, v) else p)).map Prod.fst = l.map Prod.fst := by
      rw [List.map_map]
      apply List.map_congr_left
      intro p _
      by_cases hk : p.1 = k
      · simp [hk]
      · simp [hk]
    rw [this]
    exact h
  · rw [if_neg hmem]
    rw [List.map_append]
    simp only [List.map_cons, List.map_nil]
    refine List.Nodup.append h (List.nodup_singleton k) ?_
    intro a ha hak
    rw [List.mem_singleton] at hak
    subst hak
    exact hmem ha

theorem mem_alInsert {k : α} {v : β} {q : α × β} {l : List (α × β)}
    (h : q ∈ alInsert k v l) : q = (k, v) ∨ (q ∈ l ∧ ¬ q.1 = k) := by
  unfold alInsert at h
  by_cases hmem : k ∈ l.map Prod.fst
  · rw [if_pos hmem] at h
    rcases List.mem_map.mp h with ⟨p, hp, hpq⟩
    by_cases hk : p.1 = k
    · rw [if_pos hk] at hpq
      exact Or.inl hpq.symm
    · rw [if_neg hk] at hpq
      exact Or.inr ⟨hpq ▸ hp, hpq ▸ hk⟩
  · rw [if_neg hmem] at h
    rcases List.mem_append.mp h with hl | hr
    · refine Or.inr ⟨hl, fun hk => hmem ?_⟩
      exact List.mem_map.mpr ⟨q, hl, hk⟩
    · exact Or.inl (List.mem_singleton.mp hr)

theorem keys_replace (sid : α) (v : β) (l : List (α × β)) :
    (l.map (fun p => if p.1 = sid then (sid, v) else p)).map Prod.fst = l.map Prod.fst := by
  rw [List.map_map]
  apply List.map_congr_left
  intro p _
  by_cases hk : p.1 = sid
  · simp [hk]
  · simp [hk]

theorem mem_replace {sid : α} {v : β} {q : α × β} {l : List (α × β)}
    (h : q ∈ l.map (fun p => if p.1 = sid then (sid, v) else p)) :
    q = (sid, v) ∨ (q ∈ l ∧ ¬ q.1 = sid) := by
  rcases List.mem_map.mp h with ⟨p, hp, hpq⟩
  by_cases hk : p.1 = sid
  · rw [if_pos hk] at hpq
    exact Or.inl hpq.symm
  · rw [if_neg hk] at hpq
    exact Or.inr ⟨hpq ▸ hp, hpq ▸ hk⟩

theorem replace_mem_self {sid : α} {l : List (α × β)} (v : β)
    (h : sid ∈ l.map Prod.fst) :
    (sid, v) ∈ l.map (fun p => if p.1 = sid then (sid, v) else p) := by
  rcases List.mem_map.mp h with ⟨p, hp, hp1⟩
  refine List.mem_map.mpr ⟨p, hp, ?_⟩
  rw [if_pos hp1]

theorem alLookup_of_mem_nodup {l : List (α × β)}
    (h : (l.map Prod.fst).Nodup) {p : α × β} (hp : p ∈ l) :
    alLookup p.1 l = some p.2 := by
  induction l with
  | nil => cases hp
  | cons q rest ih =>
    obtain ⟨k', v'⟩ := q
    rw [List.map_cons, List.nodup_cons] at h
    rcases List.mem_cons.mp hp with rfl | hmem
    · rw [alLookup_cons, if_pos rfl]
    · rw [alLookup_cons]
      by_cases hk : k' = p.1
      · exfalso
        refine h.1 ?_
        rw [hk]
        exact List.mem_map.mpr ⟨p, hmem, rfl⟩
      · rw [if_neg hk]
        exact ih h.2 hmem

end AssocLemmas

/-- Preservation of the presence invariant by every admissible socket
event. -/
theorem presenceInv_step (llm : List ChatTurn → String) (s : ServerState) (e : SockEvent)
    (hg : goodEvent s e) (hI : PresenceInv s) : PresenceInv (step llm s e) := by
  obtain ⟨h1, h2, h3, h4⟩ := hI
  cases e with
  | connect sid =>
    simp only [goodEvent] at hg
    simp only [step]
    refine ⟨h1, ?_, ?_, ?_⟩
    · show ((s.sockets ++ [(sid, none)]).map Prod.fst).Nodup
      rw [List.map_append]
      refine List.Nodup.append h2 (by simp) ?_
      intro a ha hak
      rw [List.map_cons, List.map_nil, List.mem_singleton] at hak
      subst hak
      exact hg ha
    · intro p hp u hpu
      rcases List.mem_append.mp hp with hmem | hone
      · exact h3 p hmem u hpu
      · rw [List.mem_singleton] at hone
        subst hone
        cases hpu
    · intro q hq
      rcases h4 q hq with ⟨p, hp, u, hpu, huid, hq2⟩
      exact ⟨p, List.mem_append_left _ hp, u, hpu, huid, hq2⟩
  | signIn sid u =>
    obtain ⟨hsid, hall⟩ : sid ∈ s.sockets.map Prod.fst ∧
        ∀ p ∈ s.sockets, ∀ u', p.2 = some u' → (u'.uid = u.uid ↔ p.1 = sid) := hg
    simp only [step]
    rw [if_pos hsid]
    refine ⟨?_, ?_, ?_, ?_⟩
    · exact keys_alInsert_nodup u.uid (mkEntry u sid) h1
    · show ((s.sockets.map (fun p => if p.1 = sid then (sid, some u) else p)).map Prod.fst).Nodup
      rw [keys_replace]
      exact h2
    · intro p hp u' hpu
      rcases mem_replace hp with heq | ⟨hmem, hne⟩
      · subst heq
        have huu : u = u' := Option.some.inj hpu
        subst huu
        show alLookup u.uid (alInsert u.uid (mkEntry u sid) s.onlineUsers) = some (mkEntry u sid)
        exact alLookup_insert_self u.uid (mkEntry u sid) s.onlineUsers
      · have hneuid : ¬ u'.uid = u.uid := fun h => hne ((hall p hmem u' hpu).mp h)
        show alLookup u'.uid (alInsert u.uid (mkEntry u sid) s.onlineUsers) = some (mkEntry u' p.1)
        rw [alLookup_insert_ne hneuid]
        exact h3 p hmem u' hpu
    · intro q hq
      rcases mem_alInsert hq with heq | ⟨hmem, hne⟩
      · subst heq
        exact ⟨(sid, some u), replace_mem_self (some u) hsid, u, rfl, rfl, rfl⟩
      · rcases h4 q hmem with ⟨p, hp, u', hpu, huid, hq2⟩
        have hpne : ¬ p.1 = sid := by
          intro hpsid
          have := (hall p hp u' hpu).mpr hpsid
          rw [huid] at this
          exact hne this
        refine ⟨p, ?_, u', hpu, huid, hq2⟩
        refine List.mem_map.mpr ⟨p, hp, ?_⟩
        rw [if_neg hpne]
  | joinChat sid chatId =>
    simp only [step]
    split
    · exact ⟨h1, h2, h3, h4⟩
    · exact ⟨h1, h2, h3, h4⟩
  | sendMsg sid senderId receiverId text now now2 =>
    simp only [step]
    split
    · exact ⟨h1, h2, h3, h4⟩
    · exact ⟨h1, h2, h3, h4⟩
  | disconnect sid =>
    cases hlk : alLookup sid s.sockets with
    | none =>
      simp only [step, hlk]
      exact ⟨h1, h2, h3, h4⟩
    | some ud =>
      have hsockmem : (sid, ud) ∈ s.sockets := mem_of_alLookup_eq_some hlk
      cases ud with
      | none =>
        simp only [step, hlk]
        refine ⟨h1, ?_, ?_, ?_⟩
        · exact (keys_alErase_sublist sid s.sockets).nodup h2
        · intro p hp u hpu
          exact h3 p (mem_alErase.mp hp).1 u hpu
        · intro q hq
          rcases h4 q hq with ⟨p, hp, u', hpu, huid, hq2⟩
          refine ⟨p, mem_alErase.mpr ⟨hp, ?_⟩, u', hpu, huid, hq2⟩
          intro hpsid
          have hlkp : alLookup p.1 s.sockets = some p.2 := alLookup_of_mem_nodup h2 hp
          rw [hpsid, hlk, hpu] at hlkp
          simp at hlkp
      | some u =>
        have hentry : alLookup u.uid s.onlineUsers = some (mkEntry u sid) :=
          h3 (sid, some u) hsockmem u rfl
        have hsome : (alLookup u.uid s.onlineUsers).isSome = true := by
          rw [hentry]; rfl
        simp only [step, hlk]
        rw [if_pos hsome]
        refine ⟨?_, ?_, ?_, ?_⟩
        · exact (keys_alErase_sublist u.uid s.onlineUsers).nodup h1
        · exact (keys_alErase_sublist sid s.sockets).nodup h2
        · intro p hp u' hpu
          obtain ⟨hpmem, hpne⟩ := mem_alErase.mp hp
          have hneuid : ¬ u'.uid = u.uid := by
            intro huu
            have hlkp : alLookup u'.uid s.onlineUsers = some (mkEntry u' p.1) :=
              h3 p hpmem u' hpu
            rw [huu, hentry] at hlkp
            exact hpne (congrArg OnlineEntry.socketId (Option.some.inj hlkp)).symm
          show alLookup u'.uid (alErase u.uid s.onlineUsers) = some (mkEntry u' p.1)
          rw [alLookup_erase_ne hneuid]
          exact h3 p hpmem u' hpu
        · intro q hq
          obtain ⟨hqmem, hqne⟩ := mem_alErase.mp hq
          rcases h4 q hqmem with ⟨p, hp, u', hpu, huid, hq2⟩
          refine ⟨p, mem_alErase.mpr ⟨hp, ?_⟩, u', hpu, huid, hq2⟩
          intro hpsid
          have hlkp : alLookup p.1 s.sockets = some p.2 := alLookup_of_mem_nodup h2 hp
          rw [hpsid, hlk, hpu] at hlkp
          have huu : u = u' := Option.some.inj (Option.some.inj hlkp)
          rw [huu, huid] at hqne
          exact hqne rfl

/-- The invariant holds in the empty initial state. -/
theorem presenceInv_initial : PresenceInv initialState := by
  refine ⟨List.nodup_nil, List.nodup_nil, ?_, ?_⟩
  · intro p hp
    cases hp
  · intro q hq
    cases hq

/-- The invariant holds after any admissible trace from any invariant
state. -/
theorem presenceInv_runAux (llm : List ChatTurn → String) :
    ∀ (t : List SockEvent) (s : ServerState),
      GoodTrace llm s t → PresenceInv s → PresenceInv (t.foldl (step llm) s)
  | [], _, _, hI => hI
  | e :: rest, s, hg, hI =>
    presenceInv_runAux llm rest (step llm s e) hg.2 (presenceInv_step llm s e hg.1 hI)

/-- C2: the chat id is the deterministic sorted concatenation of the
two participant identifiers joined by an underscore, so `getChatId` is
symmetric: both participants of a pair derive the same message-group
and room key. -/
theorem getChatId_comm (id1 id2 : String) :
    getChatId id1 id2 = getChatId id2 id1 ∧
    getChatId id1 id2 = min id1 id2 ++ "_" ++ max id1 id2 := by
  constructor
  · unfold getChatId
    rcases le_total id1 id2 with h | h
    · rcases eq_or_lt_of_le h with rfl | hlt
      · simp
      · rw [if_pos h, if_neg (not_le.mpr hlt)]
    · rcases eq_or_lt_of_le h with rfl | hlt
      · simp
      · rw [if_pos h, if_neg (not_le.mpr hlt)]
  · unfold getChatId
    rcases le_total id1 id2 with h | h
    · rw [if_pos h, min_eq_left h, max_eq_right h]
    · rcases eq_or_lt_of_le h with rfl | hlt
      · simp
      · rw [if_neg (not_le.mpr hlt), min_eq_right h, max_eq_left h]

/-- C4 (amended): for traces in which no two simultaneously connected
sockets are signed in under the same uid (and no socket switches uid),
`onlineUsers` holds exactly one entry per signed-in, still-connected
user, keyed by uid and carrying the user data together with the
`socketId` of that user's socket; moreover every `user_signed_in` adds
or replaces the sender's entry and every disconnect of a signed-in
socket with a present entry removes it, and each such change pushes the
full directory as an `update_user_list` broadcast. -/
theorem presence_directory_invariant (llm : List ChatTurn → String)
    (t : List SockEvent) (h : GoodTrace llm initialState t) :
    PresenceInv (runEvents llm t) ∧
    (∀ s : ServerState, ∀ sid : Nat, ∀ u : SUser, sid ∈ s.sockets.map Prod.fst →
      (step llm s (SockEvent.signIn sid u)).onlineUsers
          = alInsert u.uid (mkEntry u sid) s.onlineUsers ∧
      (step llm s (SockEvent.signIn sid u)).userListEmits
          = directoryValues (step llm s (SockEvent.signIn sid u)) :: s.userListEmits) ∧
    (∀ s : ServerState, ∀ sid : Nat, ∀ u : SUser,
      alLookup sid s.sockets = some (some u) →
      (alLookup u.uid s.onlineUsers).isSome = true →
      (step llm s (SockEvent.disconnect sid)).onlineUsers
          = alErase u.uid s.onlineUsers ∧
      (step llm s (SockEvent.disconnect sid)).userListEmits
          = directoryValues (step llm s (SockEvent.disconnect sid)) :: s.userListEmits) := by
  refine ⟨presenceInv_runAux llm t initialState h presenceInv_initial, ?_, ?_⟩
  · intro s sid u hsid
    simp only [step]
    rw [if_pos hsid]
    exact ⟨rfl, rfl⟩
  · intro s sid u hlk hsome
    simp only [step, hlk]
    rw [if_pos hsome]
    exact ⟨rfl, rfl⟩

theorem presence_directory_invariant_witness :
    GoodTrace (fun _ => "r") initialState
      [SockEvent.connect 1, SockEvent.signIn 1 { uid := "7001", payload := "A" },
       SockEvent.disconnect 1] ∧
    PresenceInv (runEvents (fun _ => "r")
      [SockEvent.connect 1, SockEvent.signIn 1 { uid := "7001", payload := "A" },
       SockEvent.disconnect 1]) :=
  ⟨by decide,
   (presence_directory_invariant (fun _ => "r")
      [SockEvent.connect 1, SockEvent.signIn 1 { uid := "7001", payload := "A" },
       SockEvent.disconnect 1] (by decide)).1⟩

/-- C4 counterexample: sockets 1 and 2 both sign in under uid `7001`;
when socket 1 disconnects, its handler deletes the directory entry even
though the user is still signed in on the still-connected socket 2, so
after this event sequence `onlineUsers` is empty while one signed-in
connected user remains. -/
theorem presence_directory_counterexample :
    (runEvents (fun _ => "r")
      [SockEvent.connect 1, SockEvent.connect 2,
       SockEvent.signIn 1 { uid := "7001", payload := "A" },
       SockEvent.signIn 2 { uid := "7001", payload := "A" },
       SockEvent.disconnect 1]).onlineUsers = [] ∧
    signedInUids (runEvents (fun _ => "r")
      [SockEvent.connect 1, SockEvent.connect 2,
       SockEvent.signIn 1 { uid := "7001", payload := "A" },
       SockEvent.signIn 2 { uid := "7001", payload := "A" },
       SockEvent.disconnect 1]) = ["7001"] := by
  constructor
  · rfl
  · rfl

/-- C7: the `user_signed_in` and `disconnect` handlers (and a bare
connection) never touch the persisted collections: the `Message` and
`User` stores are unchanged by every presence event, in every state. -/
theorem presence_events_frame (llm : List ChatTurn → String) (s : ServerState)
    (sid : Nat) (u : SUser) :
    (step llm s (SockEvent.signIn sid u)).store = s.store ∧
    (step llm s (SockEvent.signIn sid u)).users = s.users ∧
    (step llm s (SockEvent.disconnect sid)).store = s.store ∧
    (step llm s (SockEvent.disconnect sid)).users = s.users ∧
    (step llm s (SockEvent.connect sid)).store = s.store ∧
    (step llm s (SockEvent.connect sid)).users = s.users := by
  refine ⟨?_, ?_, ?_, ?_, rfl, rfl⟩
  · simp only [step]
    split
    · rfl
    · rfl
  · simp only [step]
    split
    · rfl
    · rfl
  · simp only [step]
    split
    · rfl
    · split
      · split
        · rfl
        · rfl
      · rfl
  · simp only [step]
    split
    · rfl
    · split
      · split
        · rfl
        · rfl
      · rfl

/-- C1: a `send_message` is handed to the language model iff its
receiverId is the reserved id `ai_assistant`; in that case an AI reply
message with senderId `ai_assistant` and receiverId the original sender
is saved and emitted, and for any other receiverId no LLM call is
made. -/
theorem send_message_ai_routing (store : List Message) (llm : List ChatTurn → String)
    (senderId receiverId text : String) (now now2 : Nat) :
    ((∃ h, Effect.llmCall h ∈ (sendMessageHandler store llm senderId receiverId text now now2).2)
        ↔ receiverId = "ai_assistant") ∧
    (receiverId = "ai_assistant" →
      ∃ m : Message, m.senderId = "ai_assistant" ∧ m.receiverId = senderId ∧
        Effect.save m ∈ (sendMessageHandler store llm senderId receiverId text now now2).2 ∧
        Effect.emitRoom (getChatId senderId receiverId) "receive_message" m
          ∈ (sendMessageHandler store llm senderId receiverId text now now2).2) := by
  by_cases hr : receiverId = "ai_assistant"
  · subst hr
    set msg1 : Message :=
      Message.mk (getChatId senderId "ai_assistant") senderId "ai_assistant" text now with hm1
    set hist := buildHistory (store ++ [msg1]) (getChatId senderId "ai_assistant") with hh
    set ai : Message :=
      Message.mk (getChatId senderId "ai_assistant") "ai_assistant" senderId (llm hist) now2 with hai
    constructor
    · constructor
      · intro _
        rfl
      · intro _
        exact ⟨hist, by simp [sendMessageHandler, hm1, hh, hai]⟩
    · intro _
      refine ⟨ai, rfl, rfl, ?_, ?_⟩
      · simp [sendMessageHandler, hm1, hh, hai]
      · simp [sendMessageHandler, hm1, hh, hai]
  · constructor
    · constructor
      · rintro ⟨h, hmem⟩
        simp [sendMessageHandler, hr] at hmem
      · intro h
        exact absurd h hr
    · intro h
      exact absurd h hr

/-- C5: every `receive_message` emitted by the `send_message` handler is
scoped to the room named `getChatId(senderId, receiverId)`, and the
handler never emits to all sockets. -/
theorem send_message_room_scoped (store : List Message) (llm : List ChatTurn → String)
    (senderId receiverId text : String) (now now2 : Nat) :
    (∀ room ev m, Effect.emitRoom room ev m
        ∈ (sendMessageHandler store llm senderId receiverId text now now2).2 →
      room = getChatId senderId receiverId ∧ ev = "receive_message") ∧
    (∀ ev m, Effect.emitAll ev m
        ∉ (sendMessageHandler store llm senderId receiverId text now now2).2) := by
  by_cases hr : receiverId = "ai_assistant"
  · subst hr
    constructor
    · intro room ev m hmem
      simp [sendMessageHandler] at hmem
      rcases hmem with ⟨h1, h2, _⟩ | ⟨h1, h2, _⟩
      · exact ⟨h1, h2⟩
      · exact ⟨h1, h2⟩
    · intro ev m
      simp [sendMessageHandler]
  · constructor
    · intro room ev m hmem
      simp [sendMessageHandler, hr] at hmem
      exact ⟨hmem.1, hmem.2.1⟩
    · intro ev m
      simp [sendMessageHandler, hr]

/-- C3: the backend registers no message-history route: for every pair
of path parameters, neither a GET nor a POST on `/messages/...` matches
a registered route (the only routes are POST /register, GET /users and
POST /ask-ai), although the frontend requests GET /messages/:uid1/:uid2
in `selectChat`. -/
theorem no_messages_route (uid1 uid2 : String) :
    handlesRoute Method.GET ("/messages/" ++ uid1 ++ "/" ++ uid2) = false ∧
    handlesRoute Method.POST ("/messages/" ++ uid1 ++ "/" ++ uid2) = false := by
  have h10 : ("/messages/" : String).length = 10 := rfl
  have h1 : ("/" : String).length = 1 := rfl
  have hlen : ("/messages/" ++ uid1 ++ "/" ++ uid2).length
      = 11 + (uid1.length + uid2.length) := by
    simp [String.length_append, h10, h1]
    omega
  have hne1 : ¬ (("/register" : String) = ("/messages/" ++ uid1 ++ "/" ++ uid2)) := by
    intro h
    have hl := congrArg String.length h
    have h9 : ("/register" : String).length = 9 := rfl
    rw [hlen, h9] at hl
    omega
  have hne2 : ¬ (("/users" : String) = ("/messages/" ++ uid1 ++ "/" ++ uid2)) := by
    intro h
    have hl := congrArg String.length h
    have h6 : ("/users" : String).length = 6 := rfl
    rw [hlen, h6] at hl
    omega
  have hne3 : ¬ (("/ask-ai" : String) = ("/messages/" ++ uid1 ++ "/" ++ uid2)) := by
    intro h
    have hl := congrArg String.length h
    have h7 : ("/ask-ai" : String).length = 7 := rfl
    rw [hlen, h7] at hl
    omega
  constructor
  · simp [handlesRoute, backendRoutes, hne1, hne2, hne3]
  · simp [handlesRoute, backendRoutes, hne1, hne2, hne3]

/-- C8: `/ask-ai` responds 400 (with the error body) iff the request's
prompt or userId is absent or falsy, and in that rejection case nothing
is saved, no LLM call occurs, and the store is unchanged. -/
theorem ask_ai_validation (store : List Message) (llm : List ChatTurn → String)
    (prompt userId : Option String) (now now2 : Nat) :
    ((askAiHandler store llm prompt userId now now2).2.2.1 = 400
        ↔ (prompt = none ∨ prompt = some "" ∨ userId = none ∨ userId = some "")) ∧
    ((prompt = none ∨ prompt = some "" ∨ userId = none ∨ userId = some "") →
      (askAiHandler store llm prompt userId now now2).1 = store ∧
      (askAiHandler store llm prompt userId now now2).2.1 = []) := by
  rcases prompt with _ | p
  · simp [askAiHandler, strFalsy]
  · rcases userId with _ | u
    · simp [askAiHandler, strFalsy]
    · by_cases hp : p = ""
      · subst hp
        simp [askAiHandler, strFalsy]
      · by_cases hu : u = ""
        · subst hu
          simp [askAiHandler, strFalsy, hp]
        · simp [askAiHandler, strFalsy, hp, hu]

/-- C6: chat history persists before broadcast: in `send_message` every
message carried by an emitted `receive_message` is saved by a strictly
earlier effect, and the relayed message is saved with the derived
chatId, senderId, receiverId and text; `/ask-ai` on a well-formed body
saves both the user's prompt and the AI reply as messages. -/
theorem message_saved_before_broadcast (store : List Message)
    (llm : List ChatTurn → String) (senderId receiverId text p u : String)
    (now now2 : Nat) :
    (∀ (k : Nat) (room ev : String) (m : Message),
      ((sendMessageHandler store llm senderId receiverId text now now2).2)[k]?
          = some (Effect.emitRoom room ev m) →
      ∃ j : Nat, j < k ∧
        ((sendMessageHandler store llm senderId receiverId text now now2).2)[j]?
          = some (Effect.save m)) ∧
    Effect.save (Message.mk (getChatId senderId receiverId) senderId receiverId text now)
      ∈ (sendMessageHandler store llm senderId receiverId text now now2).2 ∧
    (¬ p = "" → ¬ u = "" →
      Effect.save (Message.mk (getChatId u "ai_assistant") u "ai_assistant" p now)
        ∈ (askAiHandler store llm (some p) (some u) now now2).2.1 ∧
      ∃ m : Message, m.senderId = "ai_assistant" ∧ m.receiverId = u ∧
        Effect.save m ∈ (askAiHandler store llm (some p) (some u) now now2).2.1) := by
  refine ⟨?_, ?_, ?_⟩
  · intro k room ev m hk
    by_cases hr : receiverId = "ai_assistant"
    · subst hr
      rcases k with _ | _ | _ | _ | _ | k
      · simp [sendMessageHandler] at hk
      · obtain ⟨h1, h2, h3⟩ := by simpa [sendMessageHandler] using hk
        refine ⟨0, by omega, ?_⟩
        simp [sendMessageHandler, h3]
      · simp [sendMessageHandler] at hk
      · simp [sendMessageHandler] at hk
      · obtain ⟨h1, h2, h3⟩ := by simpa [sendMessageHandler] using hk
        refine ⟨3, by omega, ?_⟩
        simp [sendMessageHandler, h3]
      · simp [sendMessageHandler] at hk
    · rcases k with _ | _ | k
      · simp [sendMessageHandler, hr] at hk
      · obtain ⟨h1, h2, h3⟩ := by simpa [sendMessageHandler, hr] using hk
        refine ⟨0, by omega, ?_⟩
        simp [sendMessageHandler, hr, h3]
      · simp [sendMessageHandler, hr] at hk
  · by_cases hr : receiverId = "ai_assistant"
    · subst hr
      simp [sendMessageHandler]
    · simp [sendMessageHandler, hr]
  · intro hp hu
    constructor
    · simp [askAiHandler, strFalsy, hp, hu]
    · refine ⟨Message.mk (getChatId u "ai_assistant") "ai_assistant" u (llm (buildHistory (store ++ [Message.mk (getChatId u "ai_assistant") u "ai_assistant" p now]) (getChatId u "ai_assistant"))) now2, rfl, rfl, ?_⟩
      simp [askAiHandler, strFalsy, hp, hu]

/-- C9: `/register` keys users by the submitted phone: uid is the phone,
an existing user is answered 200 with no insert, a missing one is
created (uid = phone) and answered 201; under the integrity invariant
maintained by registration, at most one user document exists per phone
number. -/
theorem register_idempotent (users : List UserDoc) (name phone language : String)
    (h : RegInv users) :
    RegInv (registerHandler users name phone language).1 ∧
    ((registerHandler users name phone language).1.map UserDoc.phone).Nodup ∧
    (∀ user, findOneUid users phone = some user →
      registerHandler users name phone language = (users, 200, user)) ∧
    (findOneUid users phone = none →
      registerHandler users name phone language
        = (users ++ [UserDoc.mk name phone phone language], 201,
           UserDoc.mk name phone phone language)) := by
  obtain ⟨huid, hnodup⟩ := h
  have hmain : RegInv (registerHandler users name phone language).1 := by
    simp only [registerHandler]
    cases hf : findOneUid users phone with
    | some user => exact ⟨huid, hnodup⟩
    | none =>
      constructor
      · intro v hv
        rcases List.mem_append.mp hv with hv | hv
        · exact huid v hv
        · rw [List.mem_singleton] at hv
          subst hv
          rfl
      · show ((users ++ [UserDoc.mk name phone phone language]).map UserDoc.uid).Nodup
        rw [List.map_append]
        refine List.Nodup.append hnodup (by simp) ?_
        intro a ha hb
        simp only [List.map_cons, List.map_nil, List.mem_singleton] at hb
        subst hb
        rcases List.mem_map.mp ha with ⟨v, hvmem, hvu⟩
        have hnf := List.find?_eq_none.mp hf v hvmem
        simp only [decide_eq_true_eq] at hnf
        exact hnf hvu
  refine ⟨hmain, ?_, ?_, ?_⟩
  · obtain ⟨huid', hnodup'⟩ := hmain
    have hmap : (registerHandler users name phone language).1.map UserDoc.phone
        = (registerHandler users name phone language).1.map UserDoc.uid := by
      apply List.map_congr_left
      intro v hv
      exact (huid' v hv).symm
    rw [hmap]
    exact hnodup'
  · intro user hf
    simp only [registerHandler]
    rw [hf]
  · intro hf
    simp only [registerHandler]
    rw [hf]

theorem register_idempotent_witness :
    RegInv [] ∧ RegInv (registerHandler [] "Jane" "7001" "en").1 :=
  ⟨⟨fun v hv => absurd hv (List.not_mem_nil v), List.nodup_nil⟩,
   (register_idempotent [] "Jane" "7001" "en"
      ⟨fun v hv => absurd hv (List.not_mem_nil v), List.nodup_nil⟩).1⟩

/-- C10: the LLM context is bounded and ordered: every history handed to
the model by `/ask-ai` or by the `ai_assistant` branch of `send_message`
is `buildHistory` of the store with the just-saved prompt, and
`buildHistory` selects at most the 10 most recent messages of the chat,
arranged oldest to newest, with role `model` exactly for messages whose
senderId is `ai_assistant` and role `user` otherwise. -/
theorem llm_context_bounded (store : List Message) (chatId : String)
    (llm : List ChatTurn → String) (senderId text p u : String) (now now2 : Nat) :
    (∃ sel : List Message,
      buildHistory store chatId = sel.map toTurn ∧
      sel.length ≤ 10 ∧
      (∀ m ∈ sel, m.chatId = chatId) ∧
      List.Pairwise (fun a b => a.timestamp ≤ b.timestamp) sel ∧
      (∃ rest : List Message,
        (sel ++ rest).Perm (store.filter (fun m => m.chatId = chatId)) ∧
        ∀ m ∈ rest, ∀ m2 ∈ sel, m.timestamp ≤ m2.timestamp) ∧
      (∀ m ∈ sel, ((toTurn m).role = "model" ↔ m.senderId = "ai_assistant") ∧
        ((toTurn m).role = "model" ∨ (toTurn m).role = "user"))) ∧
    (∀ h, Effect.llmCall h
        ∈ (sendMessageHandler store llm senderId "ai_assistant" text now now2).2 →
      h = buildHistory (store ++ [Message.mk (getChatId senderId "ai_assistant") senderId "ai_assistant" text now]) (getChatId senderId "ai_assistant")) ∧
    (∀ h, Effect.llmCall h ∈ (askAiHandler store llm (some p) (some u) now now2).2.1 →
      h = buildHistory (store ++ [Message.mk (getChatId u "ai_assistant") u "ai_assistant" p now]) (getChatId u "ai_assistant")) := by
  refine ⟨?_, ?_, ?_⟩
  · set sorted := (store.filter (fun m => m.chatId = chatId)).insertionSort tsDesc with hs
    have hsort : List.Pairwise tsDesc sorted := by
      rw [hs]
      exact List.sorted_insertionSort tsDesc _
    refine ⟨(sorted.take 10).reverse, rfl, ?_, ?_, ?_, ?_, ?_⟩
    · rw [List.length_reverse]
      exact List.length_take_le 10 sorted
    · intro m hm
      rw [List.mem_reverse] at hm
      have hm2 : m ∈ sorted := List.take_subset 10 sorted hm
      rw [hs] at hm2
      have hm3 : m ∈ store.filter (fun m => m.chatId = chatId) :=
        (List.perm_insertionSort tsDesc _).mem_iff.mp hm2
      have := List.of_mem_filter hm3
      exact of_decide_eq_true this
    · rw [List.pairwise_reverse]
      exact hsort.sublist (List.take_sublist 10 sorted)
    · refine ⟨sorted.drop 10, ?_, ?_⟩
      · have p1 : List.Perm ((sorted.take 10).reverse ++ sorted.drop 10)
            (sorted.take 10 ++ sorted.drop 10) :=
          (List.reverse_perm _).append_right _
        have p2 : sorted.take 10 ++ sorted.drop 10 = sorted :=
          List.take_append_drop 10 sorted
        have p3 : List.Perm sorted (store.filter (fun m => m.chatId = chatId)) := by
          rw [hs]
          exact List.perm_insertionSort tsDesc _
        rw [p2] at p1
        exact p1.trans p3
      · intro m hm m2 hm2
        rw [List.mem_reverse] at hm2
        exact List.Sorted.rel_of_mem_take_of_mem_drop hsort hm2 hm
    · intro m hm
      by_cases hai : m.senderId = "ai_assistant"
      · constructor
        · simp [toTurn, hai]
        · simp [toTurn, hai]
      · constructor
        · simp [toTurn, hai]
        · simp [toTurn, hai]
  · intro h hmem
    simp [sendMessageHandler] at hmem
    exact hmem
  · intro h hmem
    by_cases hp : p = ""
    · simp [askAiHandler, strFalsy, hp] at hmem
    · by_cases hu : u = ""
      · simp [askAiHandler, strFalsy, hp, hu] at hmem
      · simp [askAiHandler, strFalsy, hp, hu] at hmem
        exact hmem
